import Mathlib

/-!
Shallow embedding of the block-synchronization orchestrator of
`syncer/syncer.go` (polygon-edge).

The syncer talks to three external collaborators, which are modelled at
their interface boundary:

* the chain store (`Blockchain`): `Header`, `VerifyFinalizedBlock`,
  `WriteBlock`, abstracted as a `ChainModel` over an opaque state type;
* the peer sync client: `GetBlocks` yields, per requested start height,
  either a failure to open the stream or the sequence of events the
  select-loop observes (a received block, or the `time.After` idle-timeout
  firing); closing of the channel is the end of the event list;
* `PeerMap.BestPeer` (its source file is not part of the verified tree),
  modelled from the spec.

Machine integers: all heights are `uint64` in Go; the syncer only compares
and copies them (never adds past `localLatest+1` on a real chain), so they
are modelled as `Nat`.

Progression-tracker calls (`StartProgression` / `UpdateHighestProgression`
/ `StopProgression`) are observability-only and carry no data back into
the control flow, so they are not modelled.

A dereference of a `nil` `*types.Header` (a Go panic) is modelled by the
enclosing function returning `none`.
-/

namespace Syncer

/-- A block, reduced to the only field the syncer inspects: `block.Number()`. -/
structure Block where
  number : Nat
deriving Repr, DecidableEq

/-- One entry of the peer table: `peer.ID` (opaque identity, modelled as `Nat`)
and the peer's advertised chain height (`Number`). -/
structure PeerStatus where
  id : Nat
  number : Nat
deriving Repr, DecidableEq

/-- The error outcomes the syncer distinguishes: `errTimeout`
("timeout awaiting block from peer"), a `GetBlocks` open failure, the
"unable to verify block" wrap and the "failed to write block" wrap. -/
inductive SyncError where
  | errTimeout
  | openError
  | verifyError
  | writeError
deriving Repr, DecidableEq

/-- One event observed by the `select` in `bulkSyncWithPeer`: either a block
arrives on `blockCh`, or `time.After(s.blockTimeout)` fires.  The end of the
event list models the channel being closed (`ok == false`). -/
inductive StreamEvent where
  | recv (b : Block)
  | timeout
deriving Repr, DecidableEq

/-- The chain-store interface consumed by the syncer, over an opaque chain
state `σ`: `header` is `Header()` (`none` = nil pointer, head unknown),
`verify` is `VerifyFinalizedBlock` (`true` = nil error), `write` is
`WriteBlock` (`none` = error, `some s2` = success with new chain state). -/
structure ChainModel (σ : Type) where
  header : σ → Option Nat
  verify : σ → Block → Bool
  write : σ → Block → Option σ

/-- The triple returned by `bulkSyncWithPeer` (`lastReceivedNumber`,
`shouldTerminate`, error), together with the resulting chain state and, as
ghost instrumentation, the list of blocks passed to `newBlockCallback`, in
call order. -/
structure PullResult (σ : Type) where
  lastReceivedNumber : Nat
  shouldTerminate : Bool
  error : Option SyncError
  chain : σ
  callbackTrace : List Block
deriving Repr, DecidableEq

/-- The `for { select { ... } }` loop of `bulkSyncWithPeer` (syncer.go,
lines 266-292), consuming the stream events in order.  Arguments after the
event list are the current chain state, `lastReceivedNumber`,
`shouldTerminate` and the ghost callback trace. -/
def pullLoop {σ : Type} (C : ChainModel σ) (cb : Block → Bool) :
    List StreamEvent → σ → Nat → Bool → List Block → PullResult σ
  | [], s, last, term, tr =>
    -- channel closed (`!ok`): return lastReceivedNumber, shouldTerminate, nil
    ⟨last, term, none, s, tr⟩
  | StreamEvent.timeout :: _, s, last, term, tr =>
    -- `case <-time.After(s.blockTimeout)`: return with errTimeout
    ⟨last, term, some SyncError.errTimeout, s, tr⟩
  | StreamEvent.recv b :: rest, s, last, term, tr =>
    if b.number == 0 then
      -- safe check: `if block.Number() == 0 { continue }`
      pullLoop C cb rest s last term tr
    else
      match C.verify s b with
      | false => ⟨last, false, some SyncError.verifyError, s, tr⟩
      | true =>
        match C.write s b with
        | none => ⟨last, false, some SyncError.writeError, s, tr⟩
        | some s2 => pullLoop C cb rest s2 b.number (cb b) (tr ++ [b])

/-- `bulkSyncWithPeer` (syncer.go, lines 248-293): reads
`s.blockchain.Header().Number` (panics, i.e. `none`, when `Header()` is
nil), opens the block stream from `localLatest+1` (`getBlocks` is
`GetBlocks` already applied to the peer; `none` = open error, returned as
`0, false, err`), then runs the pull loop. -/
def bulkSyncWithPeer {σ : Type} (C : ChainModel σ)
    (getBlocks : Nat → Option (List StreamEvent)) (cb : Block → Bool)
    (s : σ) : Option (PullResult σ) :=
  match C.header s with
  | none => none
  | some localLatest =>
    match getBlocks (localLatest + 1) with
    | none => some ⟨0, false, some SyncError.openError, s, []⟩
    | some evs => some (pullLoop C cb evs s 0 false [])

/-- Fold of `BestPeer`'s max-scan over the not-skipped entries: keeps the
first entry whose height is maximal. -/
def bestPeerAux : List PeerStatus → Option PeerStatus → Option PeerStatus
  | [], acc => acc
  | p :: rest, acc =>
    match acc with
    | none => bestPeerAux rest (some p)
    | some q => bestPeerAux rest (some (if q.number < p.number then p else q))

/-- Modelled from the spec: `PeerMap.BestPeer(skipList)` (its source file is
outside the verified tree) returns the entry with the maximum advertised
height among entries whose id is not in the skip list, or `none` if no such
entry exists; ties are broken by keeping the earlier entry. -/
def bestPeer (table : List PeerStatus) (skip : List Nat) : Option PeerStatus :=
  bestPeerAux (table.filter (fun p => !(skip.contains p.id))) none

/-- `HasSyncPeer` (syncer.go, lines 139-148): `nil` peer map gives `false`;
otherwise `bestPeer != nil && bestPeer.Number > header.Number`, where
`header.Number` dereferences `Header()`'s result (only reached when a best
peer exists, thanks to `&&` short-circuiting); `none` models the nil-pointer
panic. -/
def HasSyncPeer (peerMap : Option (List PeerStatus)) (header : Option Nat) :
    Option Bool :=
  match peerMap with
  | none => some false
  | some table =>
    match bestPeer table [] with
    | none => some false
    | some p =>
      match header with
      | none => none
      | some h => some (decide (h < p.number))

/-- `updateLocalLatest` (syncer.go, lines 152-156): refresh the cached local
height from `Header()`, keeping the previous value when `Header()` is nil. -/
def updateLocalLatest {σ : Type} (C : ChainModel σ) (old : Nat) (s : σ) : Nat :=
  match C.header s with
  | some n => n
  | none => old

/-- How one run of `BulkSync`'s `for` loop ended: the `break` at line 170-172
(no best peer, or its height does not exceed the local one), the `break` at
line 184-186 (pull loop returned no error and reached at least the peer's
advertised height), or a nil-header panic inside `bulkSyncWithPeer`. -/
inductive BulkExit where
  | noUsablePeer
  | caughtUp (peerID : Nat)
  | panicked
deriving Repr, DecidableEq

/-- Result of a `BulkSync` run: final chain state, final skip list, exit
branch, ghost callback trace, and the value the Go function returns
(`return nil` at line 193, hence always `none` on non-panicking runs). -/
structure BulkResult (σ : Type) where
  chain : σ
  skipList : List Nat
  exit : BulkExit
  callbackTrace : List Block
  ret : Option SyncError
deriving Repr, DecidableEq

/-- The `for` loop of `BulkSync` (syncer.go, lines 168-191), with explicit
fuel: `none` means the fuel ran out before the loop exited.  `client` is
`GetBlocks` indexed by peer id then start height.  Each iteration picks
`BestPeer(skipList)`, breaks when there is none or it is not ahead, runs
`bulkSyncWithPeer`, breaks when that returned no error and reached the
peer's height, and otherwise refreshes the local height and skip-lists the
peer. -/
def bulkSyncLoop {σ : Type} (C : ChainModel σ) (table : List PeerStatus)
    (client : Nat → Nat → Option (List StreamEvent)) (cb : Block → Bool) :
    Nat → σ → Nat → List Nat → List Block → Option (BulkResult σ)
  | 0, _, _, _, _ => none
  | fuel + 1, s, localLatest, skip, tr =>
    match bestPeer table skip with
    | none => some ⟨s, skip, BulkExit.noUsablePeer, tr, none⟩
    | some p =>
      if p.number ≤ localLatest then
        some ⟨s, skip, BulkExit.noUsablePeer, tr, none⟩
      else
        match bulkSyncWithPeer C (client p.id) cb s with
        | none => some ⟨s, skip, BulkExit.panicked, tr, none⟩
        | some r =>
          if r.error = none ∧ p.number ≤ r.lastReceivedNumber then
            some ⟨r.chain, skip, BulkExit.caughtUp p.id, tr ++ r.callbackTrace, none⟩
          else
            bulkSyncLoop C table client cb fuel r.chain
              (updateLocalLatest C localLatest r.chain) (p.id :: skip)
              (tr ++ r.callbackTrace)

/-- `BulkSync` (syncer.go, lines 150-194): `localLatest` starts at 0 and is
refreshed through the nil-guarded `updateLocalLatest`, the skip list starts
empty, then the loop runs.  The context argument is never consulted by the
Go code and is omitted. -/
def BulkSync {σ : Type} (C : ChainModel σ) (table : List PeerStatus)
    (client : Nat → Nat → Option (List StreamEvent)) (cb : Block → Bool)
    (fuel : Nat) (s : σ) : Option (BulkResult σ) :=
  bulkSyncLoop C table client cb fuel s (updateLocalLatest C 0 s) [] []

/-- The `(lastNumber, shouldTerminate, err)` triple `WatchSync` receives from
`bulkSyncWithPeer` for the peer it picked. -/
structure PullOutcome where
  lastNumber : Nat
  shouldTerminate : Bool
  error : Option SyncError
deriving Repr, DecidableEq

/-- The environment one `WatchSync` iteration observes after waking up on
`newStatusCh`: the current `Header()` result, the peer-map snapshot, and
the triple `bulkSyncWithPeer` would return for each peer id. -/
structure WatchEnv where
  header : Option Nat
  table : List PeerStatus
  pull : Nat → PullOutcome

/-- Mutable state of the `WatchSync` loop across iterations. -/
structure WatchState where
  localLatest : Nat
  skipList : List Nat
deriving Repr, DecidableEq

/-- Which branch one `WatchSync` iteration took. -/
inductive WatchStep where
  | resetSkip
  | noNewBlock
  | skipPeer (peerID : Nat)
  | exitMode
  | continueMode
deriving Repr, DecidableEq

/-- The nil-guarded local-height refresh at the top of each `WatchSync`
iteration (syncer.go, lines 207-209). -/
def watchLocal (e : WatchEnv) (st : WatchState) : Nat :=
  match e.header with
  | some n => n
  | none => st.localLatest

/-- One iteration of `WatchSync`'s `for` loop after the `<-s.newStatusCh`
wake-up (syncer.go, lines 206-241): refresh the local height, pick
`BestPeer(skipList)` (none: reset the skip list and continue), skip peers
that are not ahead, run the pull loop, skip-list the peer on error or on
finishing below its advertised height, and `break` when the callback
signalled termination. -/
def watchIter (e : WatchEnv) (st : WatchState) : WatchStep × WatchState :=
  let l := watchLocal e st
  match bestPeer e.table st.skipList with
  | none => (WatchStep.resetSkip, ⟨l, []⟩)
  | some p =>
    if p.number ≤ l then
      (WatchStep.noNewBlock, ⟨l, st.skipList⟩)
    else
      let r := e.pull p.id
      if r.error.isSome ∨ r.lastNumber < p.number then
        (WatchStep.skipPeer p.id, ⟨l, p.id :: st.skipList⟩)
      else if r.shouldTerminate then
        (WatchStep.exitMode, ⟨l, st.skipList⟩)
      else
        (WatchStep.continueMode, ⟨l, st.skipList⟩)

/-- `WatchSync`'s loop over a finite prefix of wake-ups: `(some (), st)`
means the loop hit the `break` (and the function returned nil);
`(none, st)` means the given wake-ups were consumed and the loop is still
waiting on `newStatusCh`. -/
def watchRun : List WatchEnv → WatchState → Option Unit × WatchState
  | [], st => (none, st)
  | e :: rest, st =>
    match watchIter e st with
    | (WatchStep.exitMode, st2) => (some (), st2)
    | (_, st2) => watchRun rest st2

/-- `WatchSync` (syncer.go, lines 197-245): the entry
`localLatest := s.blockchain.Header().Number` dereferences `Header()`
without a nil check, so a nil header (`none`) panics (modelled as `none`);
otherwise the loop starts with an empty skip list. -/
def WatchSync (initHeader : Option Nat) (envs : List WatchEnv) :
    Option (Option Unit × WatchState) :=
  match initHeader with
  | none => none
  | some l => some (watchRun envs ⟨l, []⟩)

/-- A concrete chain store used to instantiate theorems: the state is the
head number, every block extending the head by one verifies, and a
committed block becomes the new head. -/
def seqChain : ChainModel Nat where
  header s := some s
  verify s b := b.number == s + 1
  write _ b := some b.number

/-- A concrete chain store whose head is unknown (`Header()` returns nil). -/
def noHeadChain : ChainModel Nat where
  header _ := none
  verify _ _ := false
  write _ _ := none

/-- The blocks `start, start+1, ..., start+k-1`, in ascending order. -/
def consecBlocks : Nat → Nat → List Block
  | _, 0 => []
  | s, k + 1 => Block.mk s :: consecBlocks (s + 1) k

/-- A stream that delivers `consecBlocks start k` and then closes. -/
def consecStream (start k : Nat) : List StreamEvent :=
  (consecBlocks start k).map StreamEvent.recv

/-- The last value returned by the callback over a call trace, `false` when
the callback was never invoked (matching `shouldTerminate`'s zero value). -/
def lastCallbackResult (cb : Block → Bool) (tr : List Block) : Bool :=
  (tr.getLast?).elim false cb

theorem lastCallbackResult_concat (cb : Block → Bool) (tr : List Block)
    (b : Block) : lastCallbackResult cb (tr ++ [b]) = cb b := by
  simp [lastCallbackResult, List.getLast?_concat]

/-- Helper: the loop's `shouldTerminate` accumulator always equals the last
callback result of the accumulated trace on the clean-close and timeout
return paths. -/
theorem pullLoop_term_eq_lastCallback {σ : Type} (C : ChainModel σ)
    (cb : Block → Bool) :
    ∀ (evs : List StreamEvent) (s : σ) (last : Nat) (term : Bool)
      (tr : List Block),
      term = lastCallbackResult cb tr →
      (pullLoop C cb evs s last term tr).error = none ∨
        (pullLoop C cb evs s last term tr).error = some SyncError.errTimeout →
      (pullLoop C cb evs s last term tr).shouldTerminate =
        lastCallbackResult cb (pullLoop C cb evs s last term tr).callbackTrace := by
  intro evs
  induction evs with
  | nil => intro s last term tr hterm _; simpa [pullLoop] using hterm
  | cons e rest ih =>
    intro s last term tr hterm herr
    cases e with
    | timeout => simpa [pullLoop] using hterm
    | recv b =>
      by_cases h0 : b.number == 0
      · simp only [pullLoop, h0, if_true] at herr ⊢
        exact ih s last term tr hterm herr
      · simp only [pullLoop, h0, if_false] at herr ⊢
        cases hv : C.verify s b with
        | false => simp [hv] at herr
        | true =>
          cases hw : C.write s b with
          | none => simp [hv, hw] at herr
          | some s2 =>
            simp only [hv, hw] at herr ⊢
            exact ih s2 b.number (cb b) (tr ++ [b])
              ((lastCallbackResult_concat cb tr b).symm) herr

/-- Helper: the callback has no influence on which blocks the loop consumes,
verifies, commits or records — only on the terminate flag. -/
theorem pullLoop_callback_agnostic {σ : Type} (C : ChainModel σ)
    (cb cb2 : Block → Bool) :
    ∀ (evs : List StreamEvent) (s : σ) (last : Nat) (term term2 : Bool)
      (tr : List Block),
      (pullLoop C cb evs s last term tr).callbackTrace =
          (pullLoop C cb2 evs s last term2 tr).callbackTrace ∧
        (pullLoop C cb evs s last term tr).lastReceivedNumber =
          (pullLoop C cb2 evs s last term2 tr).lastReceivedNumber ∧
        (pullLoop C cb evs s last term tr).error =
          (pullLoop C cb2 evs s last term2 tr).error ∧
        (pullLoop C cb evs s last term tr).chain =
          (pullLoop C cb2 evs s last term2 tr).chain := by
  intro evs
  induction evs with
  | nil => intro s last term term2 tr; simp [pullLoop]
  | cons e rest ih =>
    intro s last term term2 tr
    cases e with
    | timeout => simp [pullLoop]
    | recv b =>
      by_cases h0 : b.number == 0
      · simp only [pullLoop, h0, if_true]
        exact ih s last term term2 tr
      · simp only [pullLoop, h0, if_false]
        cases hv : C.verify s b with
        | false => simp
        | true =>
          cases hw : C.write s b with
          | none => simp
          | some s2 => exact ih s2 b.number (cb b) (cb2 b) (tr ++ [b])

theorem consecBlocks_length (start k : Nat) :
    (consecBlocks start k).length = k := by
  induction k generalizing start with
  | zero => rfl
  | succ k ih => simp [consecBlocks, ih]

theorem consecBlocks_ascending (start k : Nat) :
    List.Chain' (fun a b : Block => a.number < b.number)
      (consecBlocks start k) := by
  induction k generalizing start with
  | zero => simp [consecBlocks]
  | succ k ih =>
    cases k with
    | zero => simp [consecBlocks]
    | succ m =>
      refine List.Chain'.cons ?_ (ih (start + 1))
      simp [consecBlocks]

/-- Helper: running the pull loop on a consecutive stream starting one above
the head `s` verifies and commits every block, calls the callback on each,
and ends at head `s + k + 1` with no error. -/
theorem pullLoop_consecStream (cb : Block → Bool) :
    ∀ (k s last : Nat) (term : Bool) (tr : List Block),
      pullLoop seqChain cb (consecStream (s + 1) (k + 1)) s last term tr =
        ⟨s + k + 1, cb ⟨s + k + 1⟩, none, s + k + 1,
          tr ++ consecBlocks (s + 1) (k + 1)⟩ := by
  intro k
  induction k with
  | zero =>
    intro s last term tr
    simp [consecStream, consecBlocks, pullLoop, seqChain]
  | succ m ih =>
    intro s last term tr
    have hstep :
        pullLoop seqChain cb (consecStream (s + 1) (m + 1 + 1)) s last term tr =
          pullLoop seqChain cb (consecStream (s + 1 + 1) (m + 1)) (s + 1)
            (s + 1) (cb ⟨s + 1⟩) (tr ++ [⟨s + 1⟩]) := by
      simp [consecStream, consecBlocks, pullLoop, seqChain]
    rw [hstep, ih]
    have harith : s + 1 + m + 1 = s + (m + 1) + 1 := by omega
    simp [consecBlocks, harith]

theorem bestPeerAux_mem :
    ∀ (l : List PeerStatus) (acc : Option PeerStatus) (p : PeerStatus),
      bestPeerAux l acc = some p → p ∈ l ∨ acc = some p := by
  intro l
  induction l with
  | nil => intro acc p h; exact Or.inr h
  | cons q rest ih =>
    intro acc p h
    cases acc with
    | none =>
      rcases ih (some q) p h with hmem | heq
      · exact Or.inl (List.mem_cons_of_mem q hmem)
      · exact Or.inl (by simp at heq; simp [heq])
    | some a =>
      rcases ih _ p h with hmem | heq
      · exact Or.inl (List.mem_cons_of_mem q hmem)
      · by_cases hlt : a.number < q.number
        · simp [bestPeerAux, hlt] at heq
          exact Or.inl (by simp [heq])
        · simp [bestPeerAux, hlt] at heq
          exact Or.inr (by simp [heq])

theorem bestPeerAux_isSome :
    ∀ (l : List PeerStatus) (acc : Option PeerStatus),
      l ≠ [] ∨ acc.isSome → (bestPeerAux l acc).isSome := by
  intro l
  induction l with
  | nil =>
    intro acc h
    rcases h with h | h
    · exact absurd rfl h
    · simpa [bestPeerAux] using h
  | cons q rest ih =>
    intro acc h
    cases acc with
    | none => exact ih (some q) (Or.inr rfl)
    | some a => exact ih _ (Or.inr rfl)

/-- The candidate returned by the modelled `BestPeer` is a table entry that
is not in the skip list. -/
theorem bestPeer_spec (table : List PeerStatus) (skip : List Nat)
    (p : PeerStatus) (h : bestPeer table skip = some p) :
    p ∈ table ∧ skip.contains p.id = false := by
  rcases bestPeerAux_mem _ none p h with hmem | heq
  · have := List.of_mem_filter hmem
    refine ⟨List.mem_of_mem_filter hmem, ?_⟩
    simpa using this
  · cases heq

/-- A nonempty table always yields a candidate once the skip list is empty. -/
theorem bestPeer_empty_skip_isSome (table : List PeerStatus)
    (h : table ≠ []) : (bestPeer table []).isSome := by
  refine bestPeerAux_isSome _ none (Or.inl ?_)
  have hfix : table.filter (fun p => !(List.contains [] p.id)) = table := by
    apply List.filter_eq_self.mpr
    intro a _
    rfl
  rw [hfix]
  exact h

theorem filter_length_mono {α : Type} (P Q : α → Bool)
    (hPQ : ∀ x, Q x = true → P x = true) :
    ∀ l : List α, (l.filter Q).length ≤ (l.filter P).length := by
  intro l
  induction l with
  | nil => simp
  | cons a rest ih =>
    by_cases hQ : Q a = true
    · simp [List.filter_cons, hQ, hPQ a hQ, Nat.succ_le_succ ih]
    · have hQ2 : Q a = false := by simpa using hQ
      by_cases hP : P a = true
      · simp [List.filter_cons, hQ2, hP]
        omega
      · have hP2 : P a = false := by simpa using hP
        simpa [List.filter_cons, hQ2, hP2] using ih

theorem filter_length_strict {α : Type} (P Q : α → Bool)
    (hPQ : ∀ x, Q x = true → P x = true) :
    ∀ (l : List α) (a : α), a ∈ l → P a = true → Q a = false →
      (l.filter Q).length < (l.filter P).length := by
  intro l
  induction l with
  | nil => intro a ha; cases ha
  | cons x rest ih =>
    intro a ha hPa hQa
    rcases List.mem_cons.mp ha with rfl | hmem
    · have hmono := filter_length_mono P Q hPQ rest
      simp [List.filter_cons, hPa, hQa]
      omega
    · have := ih a hmem hPa hQa
      by_cases hQ : Q x = true
      · simpa [List.filter_cons, hQ, hPQ x hQ] using Nat.succ_lt_succ this
      · have hQ2 : Q x = false := by simpa using hQ
        by_cases hP : P x = true
        · simp [List.filter_cons, hQ2, hP]
          omega
        · have hP2 : P x = false := by simpa using hP
          simpa [List.filter_cons, hQ2, hP2] using this

/-- Skip-listing the candidate strictly shrinks the pool of selectable
peers. -/
theorem bestPeer_skip_shrinks (table : List PeerStatus) (skip : List Nat)
    (p : PeerStatus) (h : bestPeer table skip = some p) :
    (table.filter (fun q => !(List.contains (p.id :: skip) q.id))).length <
      (table.filter (fun q => !(skip.contains q.id))).length := by
  obtain ⟨hmem, hskip⟩ := bestPeer_spec table skip p h
  refine filter_length_strict _ _ ?_ table p hmem ?_ ?_
  · intro x hx
    simp only [Bool.not_eq_true', List.contains_cons] at hx ⊢
    simp only [Bool.or_eq_false_iff] at hx
    exact hx.2
  · simpa using hskip
  · simp [List.contains_cons]

theorem bulkSyncWithPeer_isSome {σ : Type} (C : ChainModel σ)
    (getBlocks : Nat → Option (List StreamEvent)) (cb : Block → Bool) (s : σ)
    (h : (C.header s).isSome) : (bulkSyncWithPeer C getBlocks cb s).isSome := by
  rcases Option.isSome_iff_exists.mp h with ⟨n, hn⟩
  cases hg : getBlocks (n + 1) <;> simp [bulkSyncWithPeer, hn, hg]

/-- Helper: with more fuel than selectable peers, `BulkSync`'s loop always
exits, the Go function's return value is nil, and (as long as `Header()`
never returns nil) no nil-pointer panic occurs. -/
theorem bulkSyncLoop_total {σ : Type} (C : ChainModel σ)
    (table : List PeerStatus) (client : Nat → Nat → Option (List StreamEvent))
    (cb : Block → Bool) :
    ∀ (fuel : Nat) (skip : List Nat) (s : σ) (l : Nat) (tr : List Block),
      (table.filter (fun q => !(skip.contains q.id))).length < fuel →
      ∃ r, bulkSyncLoop C table client cb fuel s l skip tr = some r ∧
        r.ret = none ∧
        ((∀ s2 : σ, (C.header s2).isSome) → r.exit ≠ BulkExit.panicked) := by
  intro fuel
  induction fuel with
  | zero => intro skip s l tr h; omega
  | succ fuel ih =>
    intro skip s l tr hfuel
    cases hb : bestPeer table skip with
    | none =>
      exact ⟨⟨s, skip, BulkExit.noUsablePeer, tr, none⟩,
        by simp [bulkSyncLoop, hb], rfl, by intro _; simp⟩
    | some p =>
      by_cases hle : p.number ≤ l
      · exact ⟨⟨s, skip, BulkExit.noUsablePeer, tr, none⟩,
          by simp [bulkSyncLoop, hb, hle], rfl, by intro _; simp⟩
      · cases hpull : bulkSyncWithPeer C (client p.id) cb s with
        | none =>
          refine ⟨⟨s, skip, BulkExit.panicked, tr, none⟩,
            by simp [bulkSyncLoop, hb, hle, hpull], rfl, ?_⟩
          intro hh
          have := bulkSyncWithPeer_isSome C (client p.id) cb s (hh s)
          rw [hpull] at this
          cases this
        | some r1 =>
          by_cases hdone : r1.error = none ∧ p.number ≤ r1.lastReceivedNumber
          · exact ⟨⟨r1.chain, skip, BulkExit.caughtUp p.id,
              tr ++ r1.callbackTrace, none⟩,
              by simp [bulkSyncLoop, hb, hle, hpull, hdone], rfl,
              by intro _; simp⟩
          · have hshrink := bestPeer_skip_shrinks table skip p hb
            obtain ⟨r, hr, hret, hpanic⟩ :=
              ih (p.id :: skip) r1.chain (updateLocalLatest C l r1.chain)
                (tr ++ r1.callbackTrace) (by omega)
            refine ⟨r, ?_, hret, hpanic⟩
            simpa [bulkSyncLoop, hb, hle, hpull, hdone] using hr

/-- The chain-store contract assumed of `VerifyFinalizedBlock` and
`WriteBlock`: a block only verifies when it extends the current head by
one, and a committed block becomes the new head. -/
def ChainModel.Sequential {σ : Type} (C : ChainModel σ) : Prop :=
  (∀ (s : σ) (b : Block), C.verify s b = true →
      ∃ h, C.header s = some h ∧ b.number = h + 1) ∧
  (∀ (s : σ) (b : Block) (s2 : σ), C.write s b = some s2 →
      C.header s2 = some b.number)

theorem seqChain_sequential : seqChain.Sequential := by
  constructor
  · intro s b h
    exact ⟨s, rfl, by simpa [seqChain] using h⟩
  · intro s b s2 h
    simp [seqChain] at h
    simp [seqChain, h]

/-- Loop invariant relating the chain head, `lastReceivedNumber` and the
applied blocks under the `Sequential` chain contract. -/
def PullInv {σ : Type} (C : ChainModel σ) (s : σ) (last : Nat)
    (tr : List Block) : Prop :=
  (∀ b ∈ tr, b.number ≤ last) ∧
  ((tr = [] ∧ last = 0 ∧ (C.header s).isSome) ∨
    (C.header s = some last ∧ last ∈ tr.map Block.number))

theorem pullLoop_inv {σ : Type} (C : ChainModel σ) (hseq : C.Sequential)
    (cb : Block → Bool) :
    ∀ (evs : List StreamEvent) (s : σ) (last : Nat) (term : Bool)
      (tr : List Block), PullInv C s last tr →
      PullInv C (pullLoop C cb evs s last term tr).chain
        (pullLoop C cb evs s last term tr).lastReceivedNumber
        (pullLoop C cb evs s last term tr).callbackTrace := by
  intro evs
  induction evs with
  | nil => intro s last term tr hinv; simpa [pullLoop] using hinv
  | cons e rest ih =>
    intro s last term tr hinv
    cases e with
    | timeout => simpa [pullLoop] using hinv
    | recv b =>
      by_cases h0 : b.number == 0
      · simp only [pullLoop, h0, if_true]
        exact ih s last term tr hinv
      · simp only [pullLoop, h0, if_false]
        cases hv : C.verify s b with
        | false => simpa using hinv
        | true =>
          cases hw : C.write s b with
          | none => simpa using hinv
          | some s2 =>
            obtain ⟨h, hhead, hnum⟩ := hseq.1 s b hv
            have hhead2 : C.header s2 = some b.number := hseq.2 s b s2 hw
            refine ih s2 b.number (cb b) (tr ++ [b]) ?_
            constructor
            · intro c hc
              rcases List.mem_append.mp hc with hc | hc
              · rcases hinv.2 with ⟨htr, _, _⟩ | ⟨hhd, _⟩
                · rw [htr] at hc; cases hc
                · rw [hhd] at hhead
                  have hlh : last = h := Option.some.inj hhead
                  have := hinv.1 c hc
                  omega
              · simp at hc
                simp [hc]
            · exact Or.inr ⟨hhead2, by simp⟩

/-- C1: with local head `L` and a single peer advertising `H > L` that
streams blocks `L+1..H` consecutively (each verifying and committing
successfully, here against the sequential chain store), `BulkSync`
terminates with local head `H`, exits through the caught-up break, and the
callback is invoked exactly `H-L` times on consecutive ascending blocks. -/
theorem c1_bulkSync_single_peer_full_sync (L H pid fuel : Nat)
    (cb : Block → Bool) (hLH : L < H) :
    BulkSync seqChain [⟨pid, H⟩]
        (fun _ start => some (consecStream start (H + 1 - start))) cb
        (fuel + 1) L =
      some ⟨H, [], BulkExit.caughtUp pid, consecBlocks (L + 1) (H - L), none⟩ ∧
    (consecBlocks (L + 1) (H - L)).length = H - L ∧
    List.Chain' (fun a b : Block => a.number < b.number)
      (consecBlocks (L + 1) (H - L)) := by
  refine ⟨?_, consecBlocks_length _ _, consecBlocks_ascending _ _⟩
  obtain ⟨k, rfl⟩ : ∃ k, H = L + k + 1 := ⟨H - L - 1, by omega⟩
  have hHL : L + k + 1 - L = k + 1 := by omega
  have hstart : L + k + 1 + 1 - (L + 1) = k + 1 := by omega
  have hgt : ¬(L + k + 1 ≤ L) := by omega
  have hbest : bestPeer [⟨pid, L + k + 1⟩] [] = some ⟨pid, L + k + 1⟩ := rfl
  have hupd : updateLocalLatest seqChain 0 L = L := rfl
  have hpull :
      bulkSyncWithPeer seqChain
          (fun start => some (consecStream start (L + k + 1 + 1 - start))) cb
          L =
        some ⟨L + k + 1, cb ⟨L + k + 1⟩, none, L + k + 1,
          consecBlocks (L + 1) (k + 1)⟩ := by
    have hred :
        bulkSyncWithPeer seqChain
            (fun start => some (consecStream start (L + k + 1 + 1 - start)))
            cb L =
          some (pullLoop seqChain cb
            (consecStream (L + 1) (L + k + 1 + 1 - (L + 1))) L 0 false []) :=
      rfl
    rw [hred, hstart, pullLoop_consecStream]
    simp
  simp only [BulkSync, hupd, bulkSyncLoop, hbest, hgt, if_false, hpull, hHL]
  simp

/-- C2 counterexample: the callback asks for termination on the first block,
the second block fails verification; the code then returns
`lastReceivedNumber, false, err`, so the returned flag is `false` even
though the last callback result was `true`. -/
theorem c2_flag_dropped_on_verify_error :
    (pullLoop seqChain (fun _ => true)
        [StreamEvent.recv ⟨1⟩, StreamEvent.recv ⟨5⟩] 0 0 false []).error =
      some SyncError.verifyError ∧
    (pullLoop seqChain (fun _ => true)
        [StreamEvent.recv ⟨1⟩, StreamEvent.recv ⟨5⟩] 0 0 false []).callbackTrace =
      [⟨1⟩] ∧
    lastCallbackResult (fun _ => true) [(⟨1⟩ : Block)] = true ∧
    (pullLoop seqChain (fun _ => true)
        [StreamEvent.recv ⟨1⟩, StreamEvent.recv ⟨5⟩] 0 0 false []).shouldTerminate =
      false := by
  decide

/-- C2 (amended): on the clean-close and timeout return paths the returned
should-terminate flag is the last callback result (`false` when the callback
never ran); on a verification or commit failure the flag is `false`
regardless.  Moreover the callback never stops or alters the loop's
consumption: which blocks are applied, the last applied height, the error
and the final chain state are independent of the callback. -/
theorem c2_terminate_flag_surfaced_at_stream_end {σ : Type} (C : ChainModel σ)
    (cb cb2 : Block → Bool) (evs : List StreamEvent) (s : σ) :
    ((pullLoop C cb evs s 0 false []).error = none ∨
        (pullLoop C cb evs s 0 false []).error = some SyncError.errTimeout →
      (pullLoop C cb evs s 0 false []).shouldTerminate =
        lastCallbackResult cb (pullLoop C cb evs s 0 false []).callbackTrace) ∧
    ((pullLoop C cb evs s 0 false []).callbackTrace =
        (pullLoop C cb2 evs s 0 false []).callbackTrace ∧
      (pullLoop C cb evs s 0 false []).lastReceivedNumber =
        (pullLoop C cb2 evs s 0 false []).lastReceivedNumber ∧
      (pullLoop C cb evs s 0 false []).error =
        (pullLoop C cb2 evs s 0 false []).error ∧
      (pullLoop C cb evs s 0 false []).chain =
        (pullLoop C cb2 evs s 0 false []).chain) := by
  exact ⟨pullLoop_term_eq_lastCallback C cb evs s 0 false [] rfl,
    pullLoop_callback_agnostic C cb cb2 evs s 0 false false []⟩

/-- C2 witness: concrete instance of the amended theorem on a one-block
stream that closes cleanly. -/
theorem c2_terminate_flag_witness :
    (pullLoop seqChain (fun _ => true) [StreamEvent.recv ⟨1⟩] 0 0 false
        []).shouldTerminate =
      lastCallbackResult (fun _ => true)
        (pullLoop seqChain (fun _ => true) [StreamEvent.recv ⟨1⟩] 0 0 false
          []).callbackTrace :=
  (c2_terminate_flag_surfaced_at_stream_end seqChain (fun _ => true)
    (fun _ => false) [StreamEvent.recv ⟨1⟩] 0).1 (Or.inl rfl)

/-- C3: a block of height 0 received mid-stream is a pure no-op tick: the
loop's behaviour on the remaining events, chain state, last applied height,
terminate flag and callback trace are exactly as if the block had not been
in the stream at all — in particular it is never verified, committed or
passed to the callback. -/
theorem c3_zero_height_block_ignored {σ : Type} (C : ChainModel σ)
    (cb : Block → Bool) (rest : List StreamEvent) (s : σ) (last : Nat)
    (term : Bool) (tr : List Block) :
    pullLoop C cb (StreamEvent.recv ⟨0⟩ :: rest) s last term tr =
      pullLoop C cb rest s last term tr := rfl

/-- C4: when the idle timeout fires the pull loop returns `errTimeout`
together with the progress made so far; under the sequential chain-store
contract that progress value is the highest (and last) block height applied
in this invocation, and 0 when nothing was applied. -/
theorem c4_idle_timeout_returns_highest_applied {σ : Type} (C : ChainModel σ)
    (cb : Block → Bool) (evs : List StreamEvent) (s : σ) (h : Nat)
    (hseq : C.Sequential) (hh : C.header s = some h) :
    (∀ (rest : List StreamEvent) (last : Nat) (term : Bool) (tr : List Block),
      pullLoop C cb (StreamEvent.timeout :: rest) s last term tr =
        ⟨last, term, some SyncError.errTimeout, s, tr⟩) ∧
    ((pullLoop C cb evs s 0 false []).error = some SyncError.errTimeout →
      (∀ b ∈ (pullLoop C cb evs s 0 false []).callbackTrace,
        b.number ≤ (pullLoop C cb evs s 0 false []).lastReceivedNumber) ∧
      ((pullLoop C cb evs s 0 false []).callbackTrace = [] →
        (pullLoop C cb evs s 0 false []).lastReceivedNumber = 0) ∧
      ((pullLoop C cb evs s 0 false []).callbackTrace ≠ [] →
        (pullLoop C cb evs s 0 false []).lastReceivedNumber ∈
          (pullLoop C cb evs s 0 false []).callbackTrace.map Block.number)) := by
  constructor
  · intro rest last term tr; rfl
  · intro _
    have hinv := pullLoop_inv C hseq cb evs s 0 false []
      ⟨by simp, Or.inl ⟨rfl, rfl, by simp [hh]⟩⟩
    refine ⟨hinv.1, ?_, ?_⟩
    · intro htr
      rcases hinv.2 with ⟨_, hl, _⟩ | ⟨_, hmem⟩
      · exact hl
      · rw [htr] at hmem; simp at hmem
    · intro htr
      rcases hinv.2 with ⟨he, _, _⟩ | ⟨_, hmem⟩
      · exact absurd he htr
      · exact hmem

/-- C9: for a block of height > 0, a verification failure aborts the loop
with an error before any commit (the chain state is returned exactly as it
was, so already-applied blocks stay applied), and a commit failure likewise
aborts; in both cases the returned last-applied height and callback trace
are those accumulated from the earlier blocks. -/
theorem c9_verify_and_commit_failures_abort {σ : Type} (C : ChainModel σ)
    (cb : Block → Bool) (rest : List StreamEvent) (s : σ) (last : Nat)
    (term : Bool) (tr : List Block) (b : Block) (h0 : b.number ≠ 0) :
    (C.verify s b = false →
      pullLoop C cb (StreamEvent.recv b :: rest) s last term tr =
        ⟨last, false, some SyncError.verifyError, s, tr⟩) ∧
    (C.verify s b = true → C.write s b = none →
      pullLoop C cb (StreamEvent.recv b :: rest) s last term tr =
        ⟨last, false, some SyncError.writeError, s, tr⟩) := by
  have h0b : (b.number == 0) = false := by simpa using h0
  constructor
  · intro hv; simp [pullLoop, h0b, hv]
  · intro hv hw; simp [pullLoop, h0b, hv, hw]

/-- C1 witness: local head 2, one peer at height 5. -/
theorem c1_bulkSync_single_peer_full_sync_witness :
    BulkSync seqChain [⟨7, 5⟩]
        (fun _ start => some (consecStream start (5 + 1 - start)))
        (fun _ => false) (0 + 1) 2 =
      some ⟨5, [], BulkExit.caughtUp 7, consecBlocks (2 + 1) (5 - 2), none⟩ ∧
    (consecBlocks (2 + 1) (5 - 2)).length = 5 - 2 ∧
    List.Chain' (fun a b : Block => a.number < b.number)
      (consecBlocks (2 + 1) (5 - 2)) :=
  c1_bulkSync_single_peer_full_sync 2 5 7 0 (fun _ => false) (by decide)

/-- C4 witness: with the chain at head 0, an immediate timeout returns
`errTimeout` and zero progress. -/
theorem c4_idle_timeout_returns_highest_applied_witness :
    pullLoop seqChain (fun _ => true) [StreamEvent.timeout] 0 0 false [] =
      ⟨0, false, some SyncError.errTimeout, 0, []⟩ :=
  (c4_idle_timeout_returns_highest_applied seqChain (fun _ => true) [] 0 0
    seqChain_sequential rfl).1 [] 0 false []

/-- C9 witness: block 5 on a chain at head 0 fails verification; progress
(`lastReceivedNumber` 3, earlier trace) is returned untouched. -/
theorem c9_verify_and_commit_failures_abort_witness :
    pullLoop seqChain (fun _ => true) [StreamEvent.recv ⟨5⟩] 0 3 false
        [⟨9⟩] =
      ⟨3, false, some SyncError.verifyError, 0, [⟨9⟩]⟩ :=
  (c9_verify_and_commit_failures_abort seqChain (fun _ => true) [] 0 3 false
    [⟨9⟩] ⟨5⟩ (by decide)).1 rfl

theorem filter_empty_skip (table : List PeerStatus) :
    table.filter (fun p => !(List.contains [] p.id)) = table := by
  apply List.filter_eq_self.mpr
  intro a _
  rfl

/-- C5: with fuel for every peer and a chain store whose head is always
known, `BulkSync` completes without panicking and its return value is nil
(the `ret` field set by the code's sole `return nil`); moreover any
per-peer attempt that ends in an error is converted into skip-listing that
peer and continuing the loop with the remaining peers. -/
theorem c5_bulkSync_returns_nil_and_skips_failures {σ : Type}
    (C : ChainModel σ) (table : List PeerStatus)
    (client : Nat → Nat → Option (List StreamEvent)) (cb : Block → Bool)
    (fuel : Nat) (s : σ) (hfuel : table.length < fuel)
    (hh : ∀ s2 : σ, (C.header s2).isSome) :
    (∃ r, BulkSync C table client cb fuel s = some r ∧ r.ret = none ∧
      r.exit ≠ BulkExit.panicked) ∧
    (∀ (f : Nat) (s2 : σ) (l : Nat) (skip : List Nat) (tr : List Block)
        (p : PeerStatus) (r1 : PullResult σ),
      bestPeer table skip = some p → ¬(p.number ≤ l) →
      bulkSyncWithPeer C (client p.id) cb s2 = some r1 → r1.error ≠ none →
      bulkSyncLoop C table client cb (f + 1) s2 l skip tr =
        bulkSyncLoop C table client cb f r1.chain
          (updateLocalLatest C l r1.chain) (p.id :: skip)
          (tr ++ r1.callbackTrace)) := by
  constructor
  · obtain ⟨r, hr, hret, hpanic⟩ :=
      bulkSyncLoop_total C table client cb fuel [] s
        (updateLocalLatest C 0 s) [] (by rw [filter_empty_skip]; exact hfuel)
    exact ⟨r, hr, hret, hpanic hh⟩
  · intro f s2 l skip tr p r1 hbp hple hpull hr1err
    have hcond : ¬(r1.error = none ∧ p.number ≤ r1.lastReceivedNumber) :=
      fun h => hr1err h.1
    simp only [bulkSyncLoop, hbp]
    rw [if_neg hple]
    simp only [hpull]
    rw [if_neg hcond]

/-- C5 witness: empty peer table, head always known. -/
theorem c5_bulkSync_returns_nil_and_skips_failures_witness :
    ∃ r, BulkSync seqChain [] (fun _ _ => none) (fun _ => false) 1 0 =
        some r ∧ r.ret = none ∧ r.exit ≠ BulkExit.panicked :=
  (c5_bulkSync_returns_nil_and_skips_failures seqChain [] (fun _ _ => none)
    (fun _ => false) 1 0 (by decide) (fun _ => rfl)).1

/-- C6: in any `WatchSync` iteration, if the pull loop errored or finished
below the candidate's advertised height the candidate is skip-listed and
the loop goes back to waiting; the iteration takes the exit branch exactly
when a candidate existed, was ahead, its pull neither errored nor fell
short, and the callback signalled termination — and only that branch makes
the run return (nil). -/
theorem c6_watch_exit_only_on_clean_terminate (e : WatchEnv)
    (st : WatchState) :
    (∀ p, bestPeer e.table st.skipList = some p →
      ¬(p.number ≤ watchLocal e st) →
      ((e.pull p.id).error.isSome = true ∨
        (e.pull p.id).lastNumber < p.number) →
      watchIter e st =
          (WatchStep.skipPeer p.id,
            ⟨watchLocal e st, p.id :: st.skipList⟩) ∧
        ∀ rest, watchRun (e :: rest) st =
          watchRun rest ⟨watchLocal e st, p.id :: st.skipList⟩) ∧
    ((watchIter e st).1 = WatchStep.exitMode ↔
      ∃ p, bestPeer e.table st.skipList = some p ∧
        watchLocal e st < p.number ∧
        (e.pull p.id).error = none ∧
        p.number ≤ (e.pull p.id).lastNumber ∧
        (e.pull p.id).shouldTerminate = true) ∧
    (∀ rest, (watchIter e st).1 = WatchStep.exitMode →
      watchRun (e :: rest) st = (some (), (watchIter e st).2)) := by
  refine ⟨?_, ⟨?_, ?_⟩, ?_⟩
  · intro p hbp hple hbad
    have hit : watchIter e st =
        (WatchStep.skipPeer p.id, ⟨watchLocal e st, p.id :: st.skipList⟩) := by
      simp only [watchIter, hbp]
      rw [if_neg hple, if_pos hbad]
    exact ⟨hit, fun rest => by simp [watchRun, hit]⟩
  · intro hx
    cases hbp : bestPeer e.table st.skipList with
    | none => simp [watchIter, hbp] at hx
    | some p =>
      by_cases hple : p.number ≤ watchLocal e st
      · simp [watchIter, hbp, hple] at hx
      · by_cases hbad : (e.pull p.id).error.isSome = true ∨
            (e.pull p.id).lastNumber < p.number
        · simp only [watchIter, hbp] at hx
          rw [if_neg hple, if_pos hbad] at hx
          simp at hx
        · by_cases hterm : (e.pull p.id).shouldTerminate = true
          · refine ⟨p, rfl, by omega, ?_, ?_, hterm⟩
            · cases herr : (e.pull p.id).error with
              | none => rfl
              | some er => exact absurd (Or.inl (by simp [herr])) hbad
            · have hnl : ¬((e.pull p.id).lastNumber < p.number) :=
                fun h => hbad (Or.inr h)
              omega
          · simp only [watchIter, hbp] at hx
            rw [if_neg hple, if_neg hbad, if_neg hterm] at hx
            simp at hx
  · rintro ⟨p, hbp, hlt, herr, hge, hterm⟩
    simp only [watchIter, hbp]
    rw [if_neg (by omega : ¬p.number ≤ watchLocal e st),
      if_neg (by simp [herr]; omega), if_pos hterm]
  · intro rest hx
    rcases hw : watchIter e st with ⟨step, st2⟩
    rw [hw] at hx
    simp only at hx
    subst hx
    simp [watchRun, hw]

/-- C6 witness: the pull for the only candidate times out, so the peer is
skip-listed and the run keeps waiting. -/
theorem c6_watch_exit_only_on_clean_terminate_witness :
    watchIter ⟨some 1, [⟨4, 9⟩],
        fun _ => ⟨0, false, some SyncError.errTimeout⟩⟩ ⟨0, []⟩ =
      (WatchStep.skipPeer 4, ⟨1, [4]⟩) :=
  ((c6_watch_exit_only_on_clean_terminate
    ⟨some 1, [⟨4, 9⟩], fun _ => ⟨0, false, some SyncError.errTimeout⟩⟩
    ⟨0, []⟩).1 ⟨4, 9⟩ rfl (by decide) (Or.inl rfl)).1

/-- C7: when best-peer selection under the current skip list yields no
candidate, the `WatchSync` iteration resets the skip list to empty and the
run goes back to waiting (it does not exit); with an empty skip list any
nonempty table yields a candidate again, so previously-skipped peers are
reconsidered on subsequent wake-ups. -/
theorem c7_watch_resets_skiplist (e : WatchEnv) (st : WatchState)
    (hnone : bestPeer e.table st.skipList = none) :
    watchIter e st = (WatchStep.resetSkip, ⟨watchLocal e st, []⟩) ∧
    (∀ rest, watchRun (e :: rest) st =
      watchRun rest ⟨watchLocal e st, []⟩) ∧
    (e.table ≠ [] → (bestPeer e.table []).isSome) := by
  have hit : watchIter e st = (WatchStep.resetSkip, ⟨watchLocal e st, []⟩) := by
    simp only [watchIter]
    rw [hnone]
  exact ⟨hit, fun rest => by simp [watchRun, hit],
    fun h => bestPeer_empty_skip_isSome _ h⟩

/-- C7 witness: the only peer is skip-listed, so the iteration resets the
skip list. -/
theorem c7_watch_resets_skiplist_witness :
    watchIter ⟨some 3, [⟨1, 5⟩], fun _ => ⟨0, false, none⟩⟩ ⟨0, [1]⟩ =
      (WatchStep.resetSkip, ⟨3, []⟩) :=
  (c7_watch_resets_skiplist
    ⟨some 3, [⟨1, 5⟩], fun _ => ⟨0, false, none⟩⟩ ⟨0, [1]⟩ rfl).1

/-- C8: the selected peer is a table entry not yet in the skip list,
skip-listing it strictly shrinks the selectable pool, and therefore the
`BulkSync` loop always exits once given fuel exceeding the number of
selectable peers — termination by exhaustion of the finite peer table. -/
theorem c8_bulkSync_loop_terminates {σ : Type} (C : ChainModel σ)
    (table : List PeerStatus)
    (client : Nat → Nat → Option (List StreamEvent)) (cb : Block → Bool) :
    (∀ (skip : List Nat) (p : PeerStatus), bestPeer table skip = some p →
      p ∈ table ∧ skip.contains p.id = false) ∧
    (∀ (skip : List Nat) (p : PeerStatus), bestPeer table skip = some p →
      (table.filter (fun q => !(List.contains (p.id :: skip) q.id))).length <
        (table.filter (fun q => !(skip.contains q.id))).length) ∧
    (∀ (fuel : Nat) (skip : List Nat) (s : σ) (l : Nat) (tr : List Block),
      (table.filter (fun q => !(skip.contains q.id))).length < fuel →
      (bulkSyncLoop C table client cb fuel s l skip tr).isSome = true) := by
  refine ⟨fun skip p h => bestPeer_spec table skip p h,
    fun skip p h => bestPeer_skip_shrinks table skip p h, ?_⟩
  intro fuel skip s l tr hf
  obtain ⟨r, hr, -, -⟩ := bulkSyncLoop_total C table client cb fuel skip s l tr hf
  simp [hr]

/-- C8 witness: one peer, stream open always fails; the loop still exits
within 2 iterations of fuel. -/
theorem c8_bulkSync_loop_terminates_witness :
    (bulkSyncLoop seqChain [⟨1, 5⟩] (fun _ _ => none) (fun _ => false) 2 0 0
        [] []).isSome = true :=
  (c8_bulkSync_loop_terminates seqChain [⟨1, 5⟩] (fun _ _ => none)
    (fun _ => false)).2.2 2 [] 0 0 [] (by decide)

/-- C10: `HasSyncPeer` panics on a nil header whenever a best peer exists
(and never when the header is known), `WatchSync` panics on a nil header at
entry, `bulkSyncWithPeer` panics on a nil header, while `BulkSync`'s own
header reads are nil-guarded — with no peer to sync from it completes
normally even with an unknown head. -/
theorem c10_nil_header_dereferences :
    (∀ (table : List PeerStatus) (p : PeerStatus),
      bestPeer table [] = some p → HasSyncPeer (some table) none = none) ∧
    (∀ (table : List PeerStatus) (h : Nat),
      (HasSyncPeer (some table) (some h)).isSome = true) ∧
    (∀ envs, WatchSync none envs = none) ∧
    (∀ (σ : Type) (C : ChainModel σ)
        (getBlocks : Nat → Option (List StreamEvent)) (cb : Block → Bool)
        (s : σ), C.header s = none →
      bulkSyncWithPeer C getBlocks cb s = none) ∧
    (∀ (σ : Type) (C : ChainModel σ)
        (client : Nat → Nat → Option (List StreamEvent)) (cb : Block → Bool)
        (s : σ) (fuel : Nat), C.header s = none →
      BulkSync C [] client cb (fuel + 1) s =
        some ⟨s, [], BulkExit.noUsablePeer, [], none⟩) := by
  refine ⟨?_, ?_, ?_, ?_, ?_⟩
  · intro table p h
    simp [HasSyncPeer, h]
  · intro table h
    cases hb : bestPeer table [] <;> simp [HasSyncPeer, hb]
  · intro envs
    rfl
  · intro σ C getBlocks cb s hh
    simp [bulkSyncWithPeer, hh]
  · intro σ C client cb s fuel hh
    have hb : bestPeer ([] : List PeerStatus) [] = none := rfl
    simp [BulkSync, bulkSyncLoop, updateLocalLatest, hh, hb]

/-- C10 witness: concrete nil-header panics and the guarded `BulkSync`. -/
theorem c10_nil_header_dereferences_witness :
    HasSyncPeer (some [⟨1, 5⟩]) none = none ∧
    WatchSync none [] = none ∧
    bulkSyncWithPeer noHeadChain (fun _ => none) (fun _ => false) 0 = none ∧
    BulkSync noHeadChain [] (fun _ _ => none) (fun _ => false) (0 + 1) 0 =
      some ⟨0, [], BulkExit.noUsablePeer, [], none⟩ :=
  ⟨c10_nil_header_dereferences.1 [⟨1, 5⟩] ⟨1, 5⟩ rfl,
    c10_nil_header_dereferences.2.2.1 [],
    c10_nil_header_dereferences.2.2.2.1 Nat noHeadChain (fun _ => none)
      (fun _ => false) 0 rfl,
    c10_nil_header_dereferences.2.2.2.2 Nat noHeadChain (fun _ _ => none)
      (fun _ => false) 0 0 rfl⟩

end Syncer
